import Mathlib

/-!
Shallow embedding of `src/afl_darwin.c` (HavocEDA): a per-seed adaptive
mutation-operator selection engine (a PBIL-style estimation-of-distribution
scheme).

Modelling conventions:
* C machine integers are modelled as `ℕ` (for `unsigned`) and `ℤ` (for `int`);
  all index arithmetic in the source stays far below any overflow boundary.
* C `double` values are modelled as exact rationals `ℚ`; the source only adds,
  multiplies and compares learned probabilities.
* The global per-seed arrays (`_Fitness`, `_bestIndex`, `_nextToEvaluate`,
  `_individual`, `p`, and the row pointer `_currentRelativeProb`) are gathered
  into one record per seed; arrays are total functions from indices, and the
  indeterminate content of freshly `malloc`ed memory is an explicit `junk`
  parameter of `DARWIN_init`.
* The external RNG (`rand_32_int`, `rand_32_double`, `rand()`) is an external
  capability: its draws are passed in as explicit arguments / streams.
* The compile-time default representation is used: `VALUE_TYPE = bool`
  (`REAL_VALUED` not defined), `M = 20`, `N = 4`, `LEARNING_RATE = 0.3`.
-/

namespace HavocEDA

/-- Per-seed engine state: the slices of the global arrays of `afl_darwin.c`
belonging to one seed.  `currentRelativeProb` is the index of the population
row that the pointer `_currentRelativeProb[seed]` aims at (the pointer always
targets `_individual[seed][j]` for some `j`). -/
structure SeedState where
  Fitness : ℕ → ℤ
  bestIndex : ℕ → ℕ
  nextToEvaluate : ℕ
  individual : ℕ → ℕ → Bool
  p : ℕ → ℚ
  currentRelativeProb : ℕ

/-- `#define LEARNING_RATE 0.3`, as an exact rational. -/
def LEARNING_RATE : ℚ := 3 / 10

/-- Effect of `memset(_Fitness[seed], 0, M)` on the `int` array
`_Fitness[seed]` of `M = 20` entries: `memset` counts BYTES, so on a platform
with 4-byte `int` only the first `20 / 4 = 5` integer slots are cleared; the
remaining 15 slots keep whatever they held before (the source plainly intended
`M * sizeof(int)` bytes). -/
def memsetFitness20Bytes (f : ℕ → ℤ) : ℕ → ℤ :=
  fun j => if j < 5 then 0 else f j

/-- Body of `DARWIN_init` for one seed.  `randBit i` models the coin flip
`rand() > (RAND_MAX / 2)` used for row 0 of the population, and `junk` is the
indeterminate content of the freshly `malloc`ed arrays.  `K` is
`MutationOperatorsNum`.  Note the fitness `memset` clears only 5 of the 20
slots (see `memsetFitness20Bytes`). -/
def DARWIN_init (K : ℕ) (randBit : ℕ → Bool) (junk : SeedState) : SeedState where
  Fitness := memsetFitness20Bytes junk.Fitness
  bestIndex := fun i => if i < 4 then 5 * i else junk.bestIndex i
  nextToEvaluate := 0
  individual := fun j i => if j = 0 ∧ i < K then randBit i else junk.individual j i
  p := fun i => if i < K then 1 / 2 else junk.p i
  currentRelativeProb := 0

/-- The probing loop of `DARWIN_SelectOperator`:
`while (cand[operatorId] == false && nTries < K) { nTries++; operatorId = (operatorId + 1) % K; }`.
Termination is by the decreasing measure `K - nTries`. -/
def probe (cand : ℕ → Bool) (K operatorId nTries : ℕ) : ℕ :=
  if h : cand operatorId = false ∧ nTries < K then
    probe cand K ((operatorId + 1) % K) (nTries + 1)
  else
    operatorId
termination_by K - nTries
decreasing_by omega

/-- The activation vector `_currentRelativeProb[seed]` currently aimed at by
the row pointer. -/
def curCand (st : SeedState) : ℕ → Bool :=
  fun i => st.individual st.currentRelativeProb i

/-- `DARWIN_SelectOperator` for one seed; `r` is the draw returned by
`rand_32_int(MutationOperatorsNum)` (uniform in `[0, K)` per the RNG
contract). -/
def DARWIN_SelectOperator (K : ℕ) (st : SeedState) (r : ℕ) : ℕ :=
  probe (curCand st) K r 0

/-- First statement of `DARWIN_NotifyFeedback`:
`_Fitness[seed][_nextToEvaluate[seed]] = numPaths;`. -/
def updateFitness (st : SeedState) (numPaths : ℕ) : ℕ → ℤ :=
  fun j => if j = st.nextToEvaluate then (numPaths : ℤ) else st.Fitness j

/-- Elitism step of `DARWIN_NotifyFeedback` (after the fitness write): the
evaluated individual belongs to bucket `_nextToEvaluate * N / M`
(`N = 4`, `M = 20`), and replaces that bucket's recorded elite exactly when its
fitness is strictly greater. -/
def elitismBest (st : SeedState) (numPaths : ℕ) : ℕ → ℕ :=
  if updateFitness st numPaths st.nextToEvaluate
       > updateFitness st numPaths (st.bestIndex (st.nextToEvaluate * 4 / 20)) then
    fun b => if b = st.nextToEvaluate * 4 / 20 then st.nextToEvaluate else st.bestIndex b
  else
    st.bestIndex

/-- Integer value of a boolean activation flag (C promotes `bool` to `int`
inside `sum += _individual[seed][_bestIndex[seed][j]][i]`). -/
def boolVal (b : Bool) : ℤ :=
  if b then 1 else 0

/-- Elite activation count for operator `i`:
`for (j = 0; j < N; j++) sum += _individual[seed][best[j]][i];` with `N = 4`. -/
def eliteSum (st : SeedState) (best : ℕ → ℕ) (i : ℕ) : ℤ :=
  (Finset.range 4).sum fun j => boolVal (st.individual (best j) i)

/-- The clamp `if (sum == N) sum--; if (sum == 0) sum++;` with `N = 4`. -/
def clampSum (s : ℤ) : ℤ :=
  if (if s = 4 then s - 1 else s) = 0 then (if s = 4 then s - 1 else s) + 1
  else (if s = 4 then s - 1 else s)

/-- The probability-model update at a generation boundary:
`p[seed][i] = (1 - LEARNING_RATE) * p[seed][i] + LEARNING_RATE * sum / N;`
for every `i < K`, with the clamped elite activation count. -/
def updatedP (K : ℕ) (st : SeedState) (best : ℕ → ℕ) : ℕ → ℚ :=
  fun i =>
    if i < K then
      (1 - LEARNING_RATE) * st.p i
        + LEARNING_RATE * ((clampSum (eliteSum st best i) : ℤ) : ℚ) / 4
    else st.p i

/-- `DARWIN_NotifyFeedback` up to (and including) the generation-boundary
block: fitness write, elitism update, cursor increment, and — when the
incremented cursor reaches `M = 20` — the probability update, cursor reset,
elite-bucket re-seeding (`_bestIndex[seed][i] = 5*i` for `i < N`) and the
(byte-count-bugged) fitness `memset`. -/
def feedbackCore (K : ℕ) (st : SeedState) (numPaths : ℕ) : SeedState :=
  if st.nextToEvaluate + 1 = 20 then
    { Fitness := memsetFitness20Bytes (updateFitness st numPaths)
      bestIndex := fun i => if i < 4 then 5 * i else elitismBest st numPaths i
      nextToEvaluate := 0
      individual := st.individual
      p := updatedP K st (elitismBest st numPaths)
      currentRelativeProb := st.currentRelativeProb }
  else
    { Fitness := updateFitness st numPaths
      bestIndex := elitismBest st numPaths
      nextToEvaluate := st.nextToEvaluate + 1
      individual := st.individual
      p := st.p
      currentRelativeProb := st.currentRelativeProb }

/-- Full `DARWIN_NotifyFeedback` for one seed: after `feedbackCore`, if there
is a next individual to evaluate (`_nextToEvaluate[seed] < M`), repoint
`_currentRelativeProb[seed]` at its row and sample its activation bits,
bit `i` being `(rand_32_double() < p[seed][i]) ? 1 : 0`; `rnd i` is the `i`-th
double drawn (uniform in `[0,1)`). -/
def DARWIN_NotifyFeedback (K : ℕ) (st : SeedState) (numPaths : ℕ) (rnd : ℕ → ℚ) : SeedState :=
  if (feedbackCore K st numPaths).nextToEvaluate < 20 then
    { feedbackCore K st numPaths with
      individual := fun j i =>
        if j = (feedbackCore K st numPaths).nextToEvaluate ∧ i < K then
          decide (rnd i < (feedbackCore K st numPaths).p i)
        else (feedbackCore K st numPaths).individual j i
      currentRelativeProb := (feedbackCore K st numPaths).nextToEvaluate }
  else
    feedbackCore K st numPaths

/-- A call `DARWIN_NotifyFeedback` on `st` executes the generation-boundary
block exactly when the incremented cursor reaches `M = 20`. -/
def hitsBoundary (st : SeedState) : Prop :=
  st.nextToEvaluate + 1 = 20

/-- Iterated feedback: one `DARWIN_NotifyFeedback` call per list element
`(numPaths, rnd)`, in order. -/
def iterFeedback (K : ℕ) (l : List (ℕ × (ℕ → ℚ))) (st : SeedState) : SeedState :=
  match l with
  | [] => st
  | x :: xs => iterFeedback K xs (DARWIN_NotifyFeedback K st x.1 x.2)

/-- Seed states reachable from `DARWIN_init` by any sequence of
`DARWIN_NotifyFeedback` calls (with arbitrary RNG draws and feedback values).
`DARWIN_SelectOperator` writes no engine state, so it does not appear as a
transition. -/
inductive Reachable (K : ℕ) : SeedState → Prop where
  | init : ∀ randBit junk, Reachable K (DARWIN_init K randBit junk)
  | step : ∀ st numPaths rnd, Reachable K st →
      Reachable K (DARWIN_NotifyFeedback K st numPaths rnd)

/-- The whole engine state: one `SeedState` per seed id. -/
structure DarwinGlobal where
  seeds : ℕ → SeedState

/-- `DARWIN_SelectOperator` as a call against the whole engine state and the
RNG stream: `rng` is the stream of `rand_32_int` draws and `pos` the stream
position.  The C body contains no store to any engine array, and performs
exactly one RNG draw; its faithful translation therefore returns the global
state unchanged and advances the stream by one. -/
def DARWIN_SelectOperator_call (K : ℕ) (g : DarwinGlobal) (rng : ℕ → ℕ) (pos seed : ℕ) :
    ℕ × DarwinGlobal × ℕ :=
  (DARWIN_SelectOperator K (g.seeds seed) (rng pos), g, pos + 1)

/-- `DARWIN_get_parent_repr`: `uint32_t value = 0; return value;` — a stub
that ignores its seed argument, reads no engine state and writes nothing. -/
def DARWIN_get_parent_repr (g : DarwinGlobal) (seed : ℕ) : ℕ × DarwinGlobal :=
  (0, g)

/-- An all-zero seed state, used as concrete `malloc` junk in witnesses. -/
def zeroJunk : SeedState where
  Fitness := fun _ => 0
  bestIndex := fun _ => 0
  nextToEvaluate := 0
  individual := fun _ _ => false
  p := fun _ => 0
  currentRelativeProb := 0

/-! ### Projection lemmas for `DARWIN_NotifyFeedback` -/

lemma notify_Fitness (K : ℕ) (st : SeedState) (numPaths : ℕ) (rnd : ℕ → ℚ) :
    (DARWIN_NotifyFeedback K st numPaths rnd).Fitness = (feedbackCore K st numPaths).Fitness := by
  unfold DARWIN_NotifyFeedback
  split <;> rfl

lemma notify_bestIndex (K : ℕ) (st : SeedState) (numPaths : ℕ) (rnd : ℕ → ℚ) :
    (DARWIN_NotifyFeedback K st numPaths rnd).bestIndex
      = (feedbackCore K st numPaths).bestIndex := by
  unfold DARWIN_NotifyFeedback
  split <;> rfl

lemma notify_next (K : ℕ) (st : SeedState) (numPaths : ℕ) (rnd : ℕ → ℚ) :
    (DARWIN_NotifyFeedback K st numPaths rnd).nextToEvaluate
      = (feedbackCore K st numPaths).nextToEvaluate := by
  unfold DARWIN_NotifyFeedback
  split <;> rfl

lemma notify_p (K : ℕ) (st : SeedState) (numPaths : ℕ) (rnd : ℕ → ℚ) :
    (DARWIN_NotifyFeedback K st numPaths rnd).p = (feedbackCore K st numPaths).p := by
  unfold DARWIN_NotifyFeedback
  split <;> rfl

lemma core_Fitness (K : ℕ) (st : SeedState) (numPaths : ℕ) :
    (feedbackCore K st numPaths).Fitness
      = if st.nextToEvaluate + 1 = 20 then memsetFitness20Bytes (updateFitness st numPaths)
        else updateFitness st numPaths := by
  unfold feedbackCore
  split <;> rfl

lemma core_bestIndex (K : ℕ) (st : SeedState) (numPaths : ℕ) :
    (feedbackCore K st numPaths).bestIndex
      = if st.nextToEvaluate + 1 = 20 then
          (fun i => if i < 4 then 5 * i else elitismBest st numPaths i)
        else elitismBest st numPaths := by
  unfold feedbackCore
  split <;> rfl

lemma core_next (K : ℕ) (st : SeedState) (numPaths : ℕ) :
    (feedbackCore K st numPaths).nextToEvaluate
      = if st.nextToEvaluate + 1 = 20 then 0 else st.nextToEvaluate + 1 := by
  unfold feedbackCore
  split <;> rfl

lemma core_p (K : ℕ) (st : SeedState) (numPaths : ℕ) :
    (feedbackCore K st numPaths).p
      = if st.nextToEvaluate + 1 = 20 then updatedP K st (elitismBest st numPaths) else st.p := by
  unfold feedbackCore
  split <;> rfl

/-! ### The probing loop -/

lemma probe_unfold (cand : ℕ → Bool) (K operatorId nTries : ℕ) :
    probe cand K operatorId nTries
      = if cand operatorId = false ∧ nTries < K then
          probe cand K ((operatorId + 1) % K) (nTries + 1)
        else operatorId := by
  conv_lhs => unfold probe
  by_cases hc : cand operatorId = false ∧ nTries < K
  · rw [dif_pos hc, if_pos hc]
  · rw [dif_neg hc, if_neg hc]

lemma probe_lt (cand : ℕ → Bool) (K : ℕ) (hK : 0 < K) :
    ∀ fuel operatorId nTries, K - nTries ≤ fuel → operatorId < K →
      probe cand K operatorId nTries < K := by
  intro fuel
  induction fuel with
  | zero =>
    intro operatorId nTries hfuel hid
    rw [probe_unfold]
    have : ¬ (cand operatorId = false ∧ nTries < K) := by
      rintro ⟨-, h⟩; omega
    rw [if_neg this]
    exact hid
  | succ fuel ih =>
    intro operatorId nTries hfuel hid
    rw [probe_unfold]
    by_cases hc : cand operatorId = false ∧ nTries < K
    · rw [if_pos hc]
      exact ih ((operatorId + 1) % K) (nTries + 1) (by omega) (Nat.mod_lt _ hK)
    · rw [if_neg hc]
      exact hid

lemma probe_finds (cand : ℕ → Bool) (K : ℕ) (hK : 0 < K) :
    ∀ fuel operatorId nTries j, K - nTries = fuel → operatorId < K → j < fuel →
      cand ((operatorId + j) % K) = true →
      (∀ j', j' < j → cand ((operatorId + j') % K) = false) →
      probe cand K operatorId nTries = (operatorId + j) % K := by
  intro fuel
  induction fuel with
  | zero =>
    intro _ _ j _ _ hj
    exact absurd hj (Nat.not_lt_zero j)
  | succ fuel ih =>
    intro operatorId nTries j hfuel hid hj hcand hmin
    rw [probe_unfold]
    by_cases hc : cand operatorId = true
    · have hj0 : j = 0 := by
        by_contra hne
        have h0 := hmin 0 (Nat.pos_of_ne_zero hne)
        rw [Nat.add_zero, Nat.mod_eq_of_lt hid] at h0
        rw [hc] at h0
        cases h0
      subst hj0
      have hnc : ¬ (cand operatorId = false ∧ nTries < K) := by
        rintro ⟨hf, -⟩; rw [hc] at hf; cases hf
      rw [if_neg hnc, Nat.add_zero, Nat.mod_eq_of_lt hid]
    · have hcf : cand operatorId = false := by
        cases hh : cand operatorId
        · rfl
        · exact absurd hh hc
      have hjpos : 0 < j := by
        rcases Nat.eq_zero_or_pos j with h | h
        · subst h
          rw [Nat.add_zero, Nat.mod_eq_of_lt hid] at hcand
          rw [hcand] at hcf
          cases hcf
        · exact h
      have hnK : nTries < K := by omega
      rw [if_pos ⟨hcf, hnK⟩]
      have hmod : ((operatorId + 1) % K + (j - 1)) % K = (operatorId + j) % K := by
        rw [Nat.mod_add_mod]
        congr 1
        omega
      have hrec := ih ((operatorId + 1) % K) (nTries + 1) (j - 1) (by omega)
        (Nat.mod_lt _ hK) (by omega)
        (by rw [hmod]; exact hcand)
        (by
          intro j' hj'
          have hmod' : ((operatorId + 1) % K + j') % K = (operatorId + (j' + 1)) % K := by
            rw [Nat.mod_add_mod]
            congr 1
            omega
          rw [hmod']
          exact hmin (j' + 1) (by omega))
      rw [hrec, hmod]

/-! ### Bounds on the elite activation count and the clamp -/

lemma eliteSum_nonneg (st : SeedState) (best : ℕ → ℕ) (i : ℕ) :
    0 ≤ eliteSum st best i := by
  unfold eliteSum
  refine Finset.sum_nonneg fun j _ => ?_
  unfold boolVal
  split <;> norm_num

lemma eliteSum_le_four (st : SeedState) (best : ℕ → ℕ) (i : ℕ) :
    eliteSum st best i ≤ 4 := by
  unfold eliteSum
  calc (Finset.range 4).sum (fun j => boolVal (st.individual (best j) i))
      ≤ (Finset.range 4).sum (fun _ => (1 : ℤ)) := by
        refine Finset.sum_le_sum fun j _ => ?_
        unfold boolVal
        split <;> norm_num
    _ = 4 := by simp

lemma clampSum_mem (s : ℤ) (h0 : 0 ≤ s) (h4 : s ≤ 4) :
    1 ≤ clampSum s ∧ clampSum s ≤ 3 := by
  unfold clampSum
  split_ifs <;> omega

/-- The elitism step writes the cursor only into the cursor's own bucket, and
the cursor's bucket keeps an index of its own stride range. -/
lemma elitism_bucket_bound (st : SeedState) (numPaths : ℕ)
    (hn : st.nextToEvaluate < 20)
    (ihb : ∀ b, b < 4 → 5 * b ≤ st.bestIndex b ∧ st.bestIndex b < 5 * b + 5)
    (b : ℕ) (hb : b < 4) :
    5 * b ≤ elitismBest st numPaths b ∧ elitismBest st numPaths b < 5 * b + 5 := by
  unfold elitismBest
  split
  · by_cases hbb : b = st.nextToEvaluate * 4 / 20
    · simp only [hbb, if_true]
      omega
    · simp only [if_neg hbb]
      exact ihb b hb
  · exact ihb b hb

/-- Inductive invariant of one seed's state: the cursor is a valid population
index, every elite bucket holds an index of its own fifth of the population,
and every learned probability lies in the unit interval. -/
lemma reachable_inv (K : ℕ) (st : SeedState) (h : Reachable K st) :
    st.nextToEvaluate < 20
    ∧ (∀ b, b < 4 → 5 * b ≤ st.bestIndex b ∧ st.bestIndex b < 5 * b + 5)
    ∧ (∀ i, i < K → 0 ≤ st.p i ∧ st.p i ≤ 1) := by
  induction h with
  | init randBit junk =>
    refine ⟨by simp [DARWIN_init], fun b hb => ?_, fun i hi => ?_⟩
    · simp only [DARWIN_init, if_pos hb]
      omega
    · simp only [DARWIN_init, if_pos hi]
      norm_num
  | step st numPaths rnd hst ih =>
    obtain ⟨ihn, ihb, ihp⟩ := ih
    refine ⟨?_, ?_, ?_⟩
    · rw [notify_next, core_next]
      split <;> omega
    · intro b hb
      rw [notify_bestIndex, core_bestIndex]
      split
      · simp only [if_pos hb]
        omega
      · exact elitism_bucket_bound st numPaths ihn ihb b hb
    · intro i hi
      rw [notify_p, core_p]
      split
      · unfold updatedP
        simp only [if_pos hi]
        obtain ⟨hp0, hp1⟩ := ihp i hi
        obtain ⟨hc1, hc3⟩ := clampSum_mem (eliteSum st (elitismBest st numPaths) i)
          (eliteSum_nonneg st (elitismBest st numPaths) i)
          (eliteSum_le_four st (elitismBest st numPaths) i)
        have hq1 : (1 : ℚ) ≤ ((clampSum (eliteSum st (elitismBest st numPaths) i) : ℤ) : ℚ) := by
          exact_mod_cast hc1
        have hq3 : ((clampSum (eliteSum st (elitismBest st numPaths) i) : ℤ) : ℚ) ≤ 3 := by
          exact_mod_cast hc3
        unfold LEARNING_RATE
        constructor <;> nlinarith
      · exact ihp i hi

/-- A concrete seed state whose current candidate has operator 1 (and only
operator 1) switched on; used to instantiate the selection theorems. -/
def onCandState : SeedState :=
  { zeroJunk with individual := fun _ i => decide (i = 1) }

/-- C1: for every seed and every number of prior `DARWIN_NotifyFeedback`
calls, each learned probability `p[seed][i]` (for an operator `i < K`) stays
within `[0, 1]`: it starts at `0.5` in `DARWIN_init` and every
generation-boundary smoothing update keeps it inside the unit interval. -/
theorem p_in_unit_interval (K : ℕ) (st : SeedState) (h : Reachable K st)
    (i : ℕ) (hi : i < K) :
    0 ≤ st.p i ∧ st.p i ≤ 1 :=
  (reachable_inv K st h).2.2 i hi

/-- Witness for C1 at the freshly initialized state with `K = 2`. -/
theorem p_in_unit_interval_witness :
    0 ≤ (DARWIN_init 2 (fun _ => true) zeroJunk).p 0
      ∧ (DARWIN_init 2 (fun _ => true) zeroJunk).p 0 ≤ 1 :=
  p_in_unit_interval 2 (DARWIN_init 2 (fun _ => true) zeroJunk)
    (Reachable.init (fun _ => true) zeroJunk) 0 (by norm_num)

/-- C9: for every reachable seed state and every bucket `b < N = 4`, the elite
index `bestIndex[b]` lies in that bucket's own stride range
`[5*b, 5*b + 5)`, equivalently `bestIndex[b] * N / M = b`: it is seeded to
`5*b` and only ever replaced by a cursor whose bucket assignment is `b`. -/
theorem bestIndex_in_own_bucket (K : ℕ) (st : SeedState) (h : Reachable K st)
    (b : ℕ) (hb : b < 4) :
    5 * b ≤ st.bestIndex b ∧ st.bestIndex b < 5 * b + 5
      ∧ st.bestIndex b * 4 / 20 = b := by
  obtain ⟨h1, h2⟩ := (reachable_inv K st h).2.1 b hb
  exact ⟨h1, h2, by omega⟩

/-- Witness for C9 at the freshly initialized state, bucket 2. -/
theorem bestIndex_in_own_bucket_witness :
    5 * 2 ≤ (DARWIN_init 1 (fun _ => false) zeroJunk).bestIndex 2
      ∧ (DARWIN_init 1 (fun _ => false) zeroJunk).bestIndex 2 < 5 * 2 + 5
      ∧ (DARWIN_init 1 (fun _ => false) zeroJunk).bestIndex 2 * 4 / 20 = 2 :=
  bestIndex_in_own_bucket 1 (DARWIN_init 1 (fun _ => false) zeroJunk)
    (Reachable.init (fun _ => false) zeroJunk) 2 (by norm_num)

/-- C3: for every seed state (any candidate content, the all-off vector
included) and every RNG draw `r < K`, `DARWIN_SelectOperator` terminates (it
is a total function, with measure `K - nTries`) and returns an operator id in
`[0, K)`. -/
theorem selectOperator_in_range (K : ℕ) (st : SeedState) (r : ℕ)
    (hK : 0 < K) (hr : r < K) :
    DARWIN_SelectOperator K st r < K :=
  probe_lt (curCand st) K hK K r 0 (by omega) hr

/-- Witness for C3 with `K = 3` and an all-off candidate. -/
theorem selectOperator_in_range_witness :
    DARWIN_SelectOperator 3 zeroJunk 1 < 3 :=
  selectOperator_in_range 3 zeroJunk 1 (by norm_num) (by norm_num)

/-- C4: if the current candidate has at least one operator switched on, then
`DARWIN_SelectOperator` returns the first on operator reached by probing
forward (wrapping modulo `K`, in increasing id order) from the random start
`r`, the start itself included. -/
theorem selectOperator_first_on (K : ℕ) (st : SeedState) (r : ℕ)
    (hK : 0 < K) (hr : r < K)
    (hon : ∃ i, i < K ∧ curCand st i = true) :
    ∃ j, j < K ∧ curCand st ((r + j) % K) = true
      ∧ (∀ j', j' < j → curCand st ((r + j') % K) = false)
      ∧ DARWIN_SelectOperator K st r = (r + j) % K := by
  obtain ⟨i, hi, hci⟩ := hon
  have hwit : curCand st ((r + (i + K - r) % K) % K) = true := by
    have h1 : (r + (i + K - r) % K) % K = (r + (i + K - r)) % K :=
      Nat.add_mod_mod r (i + K - r) K
    have h2 : r + (i + K - r) = i + K := by omega
    rw [h1, h2, Nat.add_mod_right, Nat.mod_eq_of_lt hi]
    exact hci
  have hex : ∃ j, curCand st ((r + j) % K) = true := ⟨(i + K - r) % K, hwit⟩
  have hminfalse : ∀ j', j' < Nat.find hex → curCand st ((r + j') % K) = false := by
    intro j' hj'
    have hmin := Nat.find_min hex hj'
    cases hh : curCand st ((r + j') % K)
    · rfl
    · exact absurd hh hmin
  have hj0K : Nat.find hex < K := by
    have hle : Nat.find hex ≤ (i + K - r) % K := Nat.find_min' hex hwit
    have hlt := Nat.mod_lt (i + K - r) hK
    omega
  exact ⟨Nat.find hex, hj0K, Nat.find_spec hex, hminfalse,
    probe_finds (curCand st) K hK K r 0 (Nat.find hex) (by omega) hr hj0K
      (Nat.find_spec hex) hminfalse⟩

/-- Witness for C4: `K = 2`, start `r = 0` off, operator 1 on. -/
theorem selectOperator_first_on_witness :
    ∃ j, j < 2 ∧ curCand onCandState ((0 + j) % 2) = true
      ∧ (∀ j', j' < j → curCand onCandState ((0 + j') % 2) = false)
      ∧ DARWIN_SelectOperator 2 onCandState 0 = (0 + j) % 2 :=
  selectOperator_first_on 2 onCandState 0 (by norm_num) (by norm_num)
    ⟨1, by norm_num, by decide⟩

/-- C5: at a generation boundary, each probability `p[i]` (for `i < K`) is
updated exactly by `p[i] = (1 - 0.3) * p[i] + 0.3 * sum / N` where `sum` is
the clamped elite activation count; the clamped count always lies in
`[1, N-1] = [1, 3]` (so the raw extremes `N` and `0` are never used), with
`clampSum 4 = 3` and `clampSum 0 = 1`. -/
theorem boundary_probability_update (K : ℕ) (st : SeedState) (numPaths : ℕ)
    (rnd : ℕ → ℚ) (hb : hitsBoundary st) (i : ℕ) (hi : i < K) :
    (DARWIN_NotifyFeedback K st numPaths rnd).p i
      = (1 - LEARNING_RATE) * st.p i
        + LEARNING_RATE * ((clampSum (eliteSum st (elitismBest st numPaths) i) : ℤ) : ℚ) / 4
    ∧ 1 ≤ clampSum (eliteSum st (elitismBest st numPaths) i)
    ∧ clampSum (eliteSum st (elitismBest st numPaths) i) ≤ 3
    ∧ clampSum 4 = 3 ∧ clampSum 0 = 1 := by
  have hb' : st.nextToEvaluate + 1 = 20 := hb
  obtain ⟨hc1, hc3⟩ := clampSum_mem (eliteSum st (elitismBest st numPaths) i)
    (eliteSum_nonneg st (elitismBest st numPaths) i)
    (eliteSum_le_four st (elitismBest st numPaths) i)
  refine ⟨?_, hc1, hc3, by decide, by decide⟩
  rw [notify_p, core_p, if_pos hb']
  simp only [updatedP, if_pos hi]

/-- Witness for C5: a state with cursor 19 (boundary on the next call),
`K = 1`, operator 0. -/
theorem boundary_probability_update_witness :
    (DARWIN_NotifyFeedback 1 { zeroJunk with nextToEvaluate := 19 } 0 (fun _ => 0)).p 0
      = (1 - LEARNING_RATE) * ({ zeroJunk with nextToEvaluate := 19 } : SeedState).p 0
        + LEARNING_RATE * ((clampSum (eliteSum { zeroJunk with nextToEvaluate := 19 }
            (elitismBest { zeroJunk with nextToEvaluate := 19 } 0) 0) : ℤ) : ℚ) / 4
    ∧ 1 ≤ clampSum (eliteSum { zeroJunk with nextToEvaluate := 19 }
        (elitismBest { zeroJunk with nextToEvaluate := 19 } 0) 0)
    ∧ clampSum (eliteSum { zeroJunk with nextToEvaluate := 19 }
        (elitismBest { zeroJunk with nextToEvaluate := 19 } 0) 0) ≤ 3
    ∧ clampSum 4 = 3 ∧ clampSum 0 = 1 :=
  boundary_probability_update 1 { zeroJunk with nextToEvaluate := 19 } 0 (fun _ => 0)
    rfl 0 (by norm_num)

/-- C6: in every `DARWIN_NotifyFeedback` call the evaluated individual is
assigned to bucket `nextToEvaluate * N / M` (floor division, `N = 4`,
`M = 20`), and the elitism step replaces that bucket's elite with
`nextToEvaluate` exactly when the just-recorded fitness is strictly greater
than the fitness of the bucket's current elite (so a tie keeps the
incumbent); outside a generation boundary this is also the call's final
elite-index array, and at a boundary it is the array the reset then
overwrites on buckets `0..3`. -/
theorem elitism_update_rule (K : ℕ) (st : SeedState) (numPaths : ℕ) (rnd : ℕ → ℚ) :
    elitismBest st numPaths
      = (if updateFitness st numPaths st.nextToEvaluate
            > updateFitness st numPaths (st.bestIndex (st.nextToEvaluate * 4 / 20))
         then Function.update st.bestIndex (st.nextToEvaluate * 4 / 20) st.nextToEvaluate
         else st.bestIndex)
    ∧ (DARWIN_NotifyFeedback K st numPaths rnd).bestIndex
      = (if st.nextToEvaluate + 1 = 20
         then (fun b => if b < 4 then 5 * b else elitismBest st numPaths b)
         else elitismBest st numPaths) := by
  constructor
  · unfold elitismBest
    split
    · funext b
      simp [Function.update_apply]
    · rfl
  · rw [notify_bestIndex, core_bestIndex]

/-- One `DARWIN_NotifyFeedback` call advances the cursor by one, modulo the
population size `M = 20`. -/
lemma notify_next_mod (K : ℕ) (st : SeedState) (numPaths : ℕ) (rnd : ℕ → ℚ)
    (h : st.nextToEvaluate < 20) :
    (DARWIN_NotifyFeedback K st numPaths rnd).nextToEvaluate
      = (st.nextToEvaluate + 1) % 20 := by
  rw [notify_next, core_next]
  split <;> omega

/-- Iterated feedback advances the cursor by the number of calls, modulo 20. -/
lemma iter_next (K : ℕ) : ∀ (l : List (ℕ × (ℕ → ℚ))) (st : SeedState),
    st.nextToEvaluate < 20 →
    (iterFeedback K l st).nextToEvaluate = (st.nextToEvaluate + l.length) % 20 := by
  intro l
  induction l with
  | nil =>
    intro st h
    unfold iterFeedback
    simp only [List.length_nil]
    omega
  | cons x xs ih =>
    intro st h
    unfold iterFeedback
    rw [ih (DARWIN_NotifyFeedback K st x.1 x.2)
      (by rw [notify_next_mod K st x.1 x.2 h]; omega)]
    rw [notify_next_mod K st x.1 x.2 h]
    simp only [List.length_cons]
    omega

/-- C7: from init, after any `c` feedback calls the cursor equals `c % 20`
(in particular `0 ≤ nextToEvaluate < M = 20` after every operation), and the
next call executes the generation-boundary block iff it is the `c+1`-st call
with `20 ∣ c + 1` — i.e. exactly every `M`-th call, and no other, triggers
exactly one boundary. -/
theorem generation_boundary_every_M (K : ℕ) (randBit : ℕ → Bool) (junk : SeedState)
    (l : List (ℕ × (ℕ → ℚ))) :
    (iterFeedback K l (DARWIN_init K randBit junk)).nextToEvaluate = l.length % 20
    ∧ (iterFeedback K l (DARWIN_init K randBit junk)).nextToEvaluate < 20
    ∧ (hitsBoundary (iterFeedback K l (DARWIN_init K randBit junk))
        ↔ (l.length + 1) % 20 = 0) := by
  have h0 : (DARWIN_init K randBit junk).nextToEvaluate = 0 := rfl
  have h := iter_next K l (DARWIN_init K randBit junk) (by rw [h0]; norm_num)
  rw [h0, Nat.zero_add] at h
  refine ⟨h, by omega, ?_⟩
  unfold hitsBoundary
  rw [h]
  omega

/-- C8: `DARWIN_SelectOperator` has no side effect on engine state: the call
leaves every component of every seed's state unchanged, advances the RNG
stream by exactly one draw, and its result is the pure selection function of
the addressed seed's state and that single draw. -/
theorem selectOperator_no_side_effects (K : ℕ) (g : DarwinGlobal) (rng : ℕ → ℕ)
    (pos seed : ℕ) :
    (DARWIN_SelectOperator_call K g rng pos seed).2.1 = g
    ∧ (∀ s,
        ((DARWIN_SelectOperator_call K g rng pos seed).2.1.seeds s).p = (g.seeds s).p
        ∧ ((DARWIN_SelectOperator_call K g rng pos seed).2.1.seeds s).individual
            = (g.seeds s).individual
        ∧ ((DARWIN_SelectOperator_call K g rng pos seed).2.1.seeds s).Fitness
            = (g.seeds s).Fitness
        ∧ ((DARWIN_SelectOperator_call K g rng pos seed).2.1.seeds s).bestIndex
            = (g.seeds s).bestIndex
        ∧ ((DARWIN_SelectOperator_call K g rng pos seed).2.1.seeds s).nextToEvaluate
            = (g.seeds s).nextToEvaluate
        ∧ ((DARWIN_SelectOperator_call K g rng pos seed).2.1.seeds s).currentRelativeProb
            = (g.seeds s).currentRelativeProb)
    ∧ (DARWIN_SelectOperator_call K g rng pos seed).2.2 = pos + 1
    ∧ (DARWIN_SelectOperator_call K g rng pos seed).1
        = DARWIN_SelectOperator K (g.seeds seed) (rng pos) :=
  ⟨rfl, fun _ => ⟨rfl, rfl, rfl, rfl, rfl, rfl⟩, rfl, rfl⟩

/-- C10: `DARWIN_get_parent_repr` returns the constant 0 for every seed and
every engine state, reads no engine state (its value does not depend on the
state or the seed argument) and modifies nothing. -/
theorem get_parent_repr_stub (g g' : DarwinGlobal) (seed seed' : ℕ) :
    (DARWIN_get_parent_repr g seed).1 = 0
    ∧ (DARWIN_get_parent_repr g seed).2 = g
    ∧ (DARWIN_get_parent_repr g seed).1 = (DARWIN_get_parent_repr g' seed').1 :=
  ⟨rfl, rfl, rfl⟩

/-- Feedback inputs of one full generation for `K = 1`: twenty calls, the
sixth (population index 5) reporting 7 new paths, the others 0; all
`rand_32_double` draws are 1 (so no sampled bit switches on). -/
def bugInputs : List (ℕ × (ℕ → ℚ)) :=
  (List.range 20).map fun k => (if k = 5 then 7 else 0, fun _ => 1)

set_option maxRecDepth 100000

/-- C2 is refuted on the code: after exactly one full generation (20 feedback
calls) from init, the generation boundary has run (the cursor is back at 0),
yet fitness slot 5 still holds the value 7 recorded during the generation.
The fitness "reset" `memset(_Fitness[seed], 0, M)` clears only `M = 20`
BYTES — the first 5 of the 20 `int` slots — because it passes an element
count where `memset` expects a byte count (`M * sizeof(int)`); slot 4, inside
the cleared range, does read 0. -/
theorem fitness_reset_misses_upper_slots :
    (iterFeedback 1 bugInputs (DARWIN_init 1 (fun _ => true) zeroJunk)).nextToEvaluate = 0
    ∧ (iterFeedback 1 bugInputs (DARWIN_init 1 (fun _ => true) zeroJunk)).Fitness 5 = 7
    ∧ (iterFeedback 1 bugInputs (DARWIN_init 1 (fun _ => true) zeroJunk)).Fitness 4 = 0 :=
  ⟨rfl, rfl, rfl⟩

end HavocEDA
